import Mathlib

/-!
Verification of `mobair/utils.py`: a shallow embedding of the four utility
functions of the repository (`map_road_list_to_attribute`,
`normalize_emissions`, `add_edge_emissions`,
`add_edge_centrality_measures`) together with proofs of the specified
properties.

Python dictionaries are embedded as association lists (lookup and
update target the first matching key; Python dict keys are unique so
the two semantics agree), Python floats as rationals, and in-place
mutation of the networkx graph as explicit state passing.  Functions
that can raise for malformed input are embedded with `Option`.
-/

set_option autoImplicit false

namespace Mobair

/-- A Python value as it occurs in edge-attribute dictionaries and as a
`default_value` argument: `None`, a number, a string, or a dictionary
mapping strings to values. -/
inductive PyVal where
  | vnone : PyVal
  | vnum (q : ℚ) : PyVal
  | vstr (s : String) : PyVal
  | vdict (d : List (String × PyVal)) : PyVal

/-- `type(x) == dict` in Python. -/
def PyVal.isDict : PyVal → Bool
  | .vdict _ => true
  | _ => false

/-- An edge-attribute dictionary: attribute name to value. -/
abbrev AttrDict := List (String × PyVal)

/-- `d.get(name, default)` on a Python dict: first matching entry. -/
def getAttr (d : AttrDict) (name : String) : Option PyVal :=
  match d with
  | [] => none
  | (k, v) :: rest => if k = name then some v else getAttr rest name

/-- `d[name] = val` on a Python dict: replace the entry if the key is
present, append it otherwise. -/
def setAttr (d : AttrDict) (name : String) (val : PyVal) : AttrDict :=
  match d with
  | [] => [(name, val)]
  | (k, v) :: rest => if k = name then (k, val) :: rest else (k, v) :: setAttr rest name val

/-- One edge of a networkx `MultiDiGraph`: endpoints `u`, `v`, the
parallel-edge key, and the attribute dictionary. -/
structure Edge where
  u : Nat
  v : Nat
  key : Nat
  data : AttrDict

/-- A networkx `MultiDiGraph`: a node list and an edge list. -/
structure MultiDiGraph where
  nodes : List Nat
  edges : List Edge

/-- The `(u, v, key)` identity of an edge. -/
def Edge.triple (e : Edge) : Nat × Nat × Nat := (e.u, e.v, e.key)

/-- The edge between `u` and `v` with parallel-edge key `k`, if any. -/
def edgeAt (g : MultiDiGraph) (u v k : Nat) : Option Edge :=
  g.edges.find? (fun e => e.u = u ∧ e.v = v ∧ e.key = k)

/-- `G.get_edge_data(u, v, key, default)` on a `MultiDiGraph`: the
attribute dictionary of the parallel edge with exactly this key, as a
`PyVal.vdict`, or `default` when no such edge exists. -/
def get_edge_data (g : MultiDiGraph) (u v k : Nat) (default : PyVal) : PyVal :=
  match edgeAt g u v k with
  | some e => .vdict e.data
  | none => default

/-- Lookup in the road-to-attribute result dictionary (keys are the
road tuples, embedded as lists of node ids). -/
def lookupRoad (d : List (List Nat × PyVal)) (r : List Nat) : Option PyVal :=
  match d with
  | [] => none
  | (k, v) :: rest => if k = r then some v else lookupRoad rest r

/-- `d[road] = val` on the result dictionary. -/
def insertRoad (d : List (List Nat × PyVal)) (r : List Nat) (val : PyVal) :
    List (List Nat × PyVal) :=
  match d with
  | [] => [(r, val)]
  | (k, v) :: rest => if k = r then (k, val) :: rest else (k, v) :: insertRoad rest r val

/-- The value computed for one road in the loop body of
`map_road_list_to_attribute`: `get_edge_data(u, v, key=0, default)`,
then `.get(attribute_name, default)` when the lookup produced a dict,
the default otherwise. -/
def roadValue (g : MultiDiGraph) (attr : String) (default : PyVal) (u v : Nat) : PyVal :=
  match get_edge_data g u v 0 default with
  | .vdict dd => (getAttr dd attr).getD default
  | _ => default

/-- The loop body of `map_road_list_to_attribute` for one road:
`get_edge_data(c_road[0], c_road[1], key=0, default=default_value)`,
then `.get(attribute_name, default_value)` when the lookup produced a
dict; indexing a road of fewer than two nodes raises `IndexError`,
embedded as `none`. -/
def mapperStep (road_network : MultiDiGraph) (attribute_name : String) (default_value : PyVal)
    (d : List (List Nat × PyVal)) (c_road : List Nat) : Option (List (List Nat × PyVal)) := do
  let u ← c_road.get? 0
  let v ← c_road.get? 1
  let c_dict_attributes := get_edge_data road_network u v 0 default_value
  let c_attribute := match c_dict_attributes with
    | .vdict dd => (getAttr dd attribute_name).getD default_value
    | _ => default_value
  pure (insertRoad d c_road c_attribute)

/-- `map_road_list_to_attribute(list_roads, road_network, attribute_name,
default_value)` from `mobair/utils.py`.  The road list is deduplicated
(`set(tuple(i) for i in list_roads)`), then for each road the key-0
edge between its first two nodes is consulted.  The graph is threaded
through and returned: the source performs no write to it. -/
def map_road_list_to_attribute (list_roads : List (List Nat)) (road_network : MultiDiGraph)
    (attribute_name : String) (default_value : PyVal) :
    Option (List (List Nat × PyVal) × MultiDiGraph) := do
  let set_roads := list_roads.dedup
  let dict ← set_roads.foldlM (mapperStep road_network attribute_name default_value)
    ([] : List (List Nat × PyVal))
  pure (dict, road_network)

/-! ### `add_edge_emissions` -/

/-- One emission record `[u, v, cumulate_emissions]`. -/
abbrev EmissionRecord := Nat × Nat × ℚ

/-- Lookup in a pair-keyed dictionary. -/
def lookupPair {α : Type} (d : List ((Nat × Nat) × α)) (p : Nat × Nat) : Option α :=
  match d with
  | [] => none
  | (k, v) :: rest => if k = p then some v else lookupPair rest p

/-- `d[(u, v)] = val` on a pair-keyed dictionary. -/
def insertPair {α : Type} (d : List ((Nat × Nat) × α)) (p : Nat × Nat) (val : α) :
    List ((Nat × Nat) × α) :=
  match d with
  | [] => [(p, val)]
  | (k, v) :: rest => if k = p then (k, val) :: rest else (k, v) :: insertPair rest p val

/-- The dict comprehension
`{(u, v): em for [u, v, em] in list_road_to_cumulate_emissions}`:
a later record for the same `(u, v)` pair silently overwrites an
earlier one. -/
def emissionTable (records : List EmissionRecord) : List ((Nat × Nat) × ℚ) :=
  records.foldl (fun d r => insertPair d (r.1, r.2.1) r.2.2) []

/-- The loop body of `add_edge_emissions` for one edge: set the
pollutant attribute to the table entry, or to `None` on `KeyError`. -/
def emisF (table : List ((Nat × Nat) × ℚ)) (name_of_pollutant : String) (e : Edge) : Edge :=
  match lookupPair table (e.u, e.v) with
  | some em => { e with data := setAttr e.data name_of_pollutant (.vnum em) }
  | none => { e with data := setAttr e.data name_of_pollutant .vnone }

/-- `add_edge_emissions(list_road_to_cumulate_emissions, road_network,
name_of_pollutant)` from `mobair/utils.py`: iterate every edge
(`keys=False`), set its pollutant attribute to the table entry for its
`(u, v)` pair, or to `None` on `KeyError`. -/
def add_edge_emissions (records : List EmissionRecord) (road_network : MultiDiGraph)
    (name_of_pollutant : String) : MultiDiGraph :=
  let table := emissionTable records
  { road_network with edges := road_network.edges.map (emisF table name_of_pollutant) }

/-! ### `normalize_emissions` -/

/-- A pandas DataFrame, column-wise: a list of (column name, column
values); every column has one value per row. -/
structure DataFrame where
  cols : List (String × List ℚ)

/-- Lookup of the first column of a given name in a column list. -/
def colsGet (cols : List (String × List ℚ)) (c : String) : Option (List ℚ) :=
  match cols with
  | [] => none
  | (k, col) :: rest => if k = c then some col else colsGet rest c

/-- Replace the first column of a given name in a column list (append
when absent). -/
def colsSet (cols : List (String × List ℚ)) (c : String) (col : List ℚ) :
    List (String × List ℚ) :=
  match cols with
  | [] => [(c, col)]
  | (k, old) :: rest =>
    if k = c then (k, col) :: rest else (k, old) :: colsSet rest c col

/-- `df[c]`: the first column named `c`, `none` when the access would
raise `KeyError`. -/
def dfGet (df : DataFrame) (c : String) : Option (List ℚ) :=
  colsGet df.cols c

/-- `df[c] = col`: replace the first column named `c` (append when
absent, as pandas column assignment creates the column). -/
def dfSet (df : DataFrame) (c : String) (col : List ℚ) : DataFrame :=
  ⟨colsSet df.cols c col⟩

/-- A column divided by its own total, times 100 when `percentage`. -/
def normColumn (percentage : Bool) (col : List ℚ) : List ℚ :=
  let tot_emissions : ℚ := col.sum
  col.map (fun x => if percentage then x / tot_emissions * 100 else x / tot_emissions)

/-- The loop body of `normalize_emissions` for one pollutant: read the
column from the original table, write its normalized version to the
copy. -/
def normalizeStep (tdf_with_emissions : DataFrame) (percentage : Bool)
    (acc : DataFrame) (c_pollutant : String) : Option DataFrame :=
  match dfGet tdf_with_emissions c_pollutant with
  | none => none
  | some col => some (dfSet acc c_pollutant (normColumn percentage col))

/-- `normalize_emissions(tdf_with_emissions, percentage,
list_of_pollutants)` from `mobair/utils.py`: start from a copy of the
input, and for each listed pollutant divide the input's column by that
column's total (`float(np.sum(...))`), times 100 when `percentage`.
Every read is from the original table, every write goes to the copy.
A missing column raises `KeyError` in Python, embedded as `none`. -/
def normalize_emissions (tdf_with_emissions : DataFrame) (percentage : Bool)
    (list_of_pollutants : List String) : Option DataFrame :=
  list_of_pollutants.foldlM (normalizeStep tdf_with_emissions percentage) tdf_with_emissions

/-! ### `add_edge_centrality_measures`

The networkx functions called by `add_edge_centrality_measures`
(`line_graph`, `closeness_centrality`, `degree_centrality`,
`edge_betweenness_centrality`, `set_edge_attributes`) are not part of
this repository; they are modelled from the spec below.  Only
`add_edge_centrality_measures` itself is translated from source. -/

/-- Triple-keyed dictionary lookup. -/
def lookupTriple {α : Type} (d : List ((Nat × Nat × Nat) × α)) (t : Nat × Nat × Nat) :
    Option α :=
  match d with
  | [] => none
  | (k, v) :: rest => if k = t then some v else lookupTriple rest t

/-- The effect of `set_edge_attributes` on one edge. -/
def setEdgeF (vals : List ((Nat × Nat × Nat) × PyVal)) (name : String) (e : Edge) : Edge :=
  match lookupTriple vals e.triple with
  | some v => { e with data := setAttr e.data name v }
  | none => e

/-- Modelled from the spec: networkx `set_edge_attributes(G, values, name)`
with a `(u, v, key)`-keyed value dictionary — each edge whose triple has an
entry gets the attribute set; edges without an entry are untouched. -/
def set_edge_attributes (g : MultiDiGraph) (vals : List ((Nat × Nat × Nat) × PyVal))
    (name : String) : MultiDiGraph :=
  { g with edges := g.edges.map (setEdgeF vals name) }

/-- The `(u, v, key)` triples of a graph's edges. -/
def skeletonTriples (g : MultiDiGraph) : List (Nat × Nat × Nat) :=
  g.edges.map Edge.triple

/-- The betweenness weight of an edge: its numeric `length` attribute,
1 when absent (networkx treats a missing weight attribute as 1). -/
def edgeLength (d : AttrDict) : ℚ :=
  match getAttr d "length" with
  | some (.vnum q) => q
  | _ => 1

/-- The `(u, v, key)` triples of a graph's edges with their lengths. -/
def weightedTriples (g : MultiDiGraph) : List ((Nat × Nat × Nat) × ℚ) :=
  g.edges.map (fun e => (e.triple, edgeLength e.data))

/-- The edge-dual (line) graph: nodes are `(u, v, key)` triples of the
original edges, edges are the dual adjacencies. -/
structure LineGraph where
  nodes : List (Nat × Nat × Nat)
  edges : List ((Nat × Nat × Nat) × (Nat × Nat × Nat))

/-- Modelled from the spec: networkx `line_graph` on a directed
multigraph — one dual node per `(u, v, key)` edge triple, and a dual
edge from triple `a` to triple `b` whenever the head of `a` is the tail
of `b`. -/
def line_graph_triples (ts : List (Nat × Nat × Nat)) : LineGraph :=
  let ns := ts.dedup
  { nodes := ns
    edges := (ns.product ns).filter (fun p => p.1.2.1 = p.2.1) }

/-- networkx `line_graph(road_network)`: the dual graph of the edge
triples. -/
def line_graph (g : MultiDiGraph) : LineGraph :=
  line_graph_triples (skeletonTriples g)

/-- Successors of `s` in an edge list. -/
def succs {α : Type} [DecidableEq α] (edges : List (α × α)) (s : α) : List α :=
  (edges.filterMap (fun p => if p.1 = s then some p.2 else none)).dedup

/-- All simple (node-distinct) paths from `s` to `t`, as node sequences;
`fuel` bounds the number of nodes on a path. -/
def simplePathsAux {α : Type} [DecidableEq α] (edges : List (α × α)) :
    Nat → α → α → List α → List (List α)
  | 0, _, _, _ => []
  | fuel + 1, s, t, visited =>
    if s = t then [[t]]
    else ((succs edges s).filter (fun n => decide (n ∉ s :: visited))).flatMap
      (fun n => (simplePathsAux edges fuel n t (s :: visited)).map (fun p => s :: p))

/-- Minimum of a list of naturals. -/
def minNatList : List Nat → Option Nat
  | [] => none
  | q :: rest =>
    match minNatList rest with
    | none => some q
    | some m => some (min q m)

/-- Minimum of a list of rationals. -/
def minRatList : List ℚ → Option ℚ
  | [] => none
  | q :: rest =>
    match minRatList rest with
    | none => some q
    | some m => some (min q m)

/-- Hop distance from `s` to `t` (number of edges of a shortest path),
`none` when `t` is unreachable from `s`. -/
def hopDist {α : Type} [DecidableEq α] (edges : List (α × α)) (fuel : Nat) (s t : α) :
    Option Nat :=
  minNatList ((simplePathsAux edges fuel s t []).map (fun p => p.length - 1))

/-- Modelled from the spec: networkx `closeness_centrality` on the dual
graph — for each dual node, the reciprocal of the average shortest-path
distance from that node to the reachable dual nodes (unreachable nodes
excluded from the average; 0 when nothing is reachable). -/
def closeness_centrality (L : LineGraph) : List ((Nat × Nat × Nat) × ℚ) :=
  let fuel := L.nodes.length
  L.nodes.map (fun x =>
    let ds := L.nodes.filterMap (fun y => if y = x then none else hopDist L.edges fuel x y)
    let s := ds.sum
    let r := ds.length
    (x, if s = 0 then 0 else (r : ℚ) / (s : ℚ)))

/-- Modelled from the spec: networkx `degree_centrality` on the dual
graph — the degree (in-degree plus out-degree) of each dual node divided
by (number of dual nodes − 1). -/
def degree_centrality (L : LineGraph) : List ((Nat × Nat × Nat) × ℚ) :=
  let n := L.nodes.length
  L.nodes.map (fun x =>
    let d := (L.edges.filter (fun p => p.1 = x)).length
      + (L.edges.filter (fun p => p.2 = x)).length
    (x, (d : ℚ) / ((n : ℚ) - 1)))

/-- Collapse parallel edges to a pair-keyed weight map, keeping the
minimum length (networkx shortest paths on a multigraph use the lightest
parallel edge). -/
def pairWeights (wts : List ((Nat × Nat × Nat) × ℚ)) : List ((Nat × Nat) × ℚ) :=
  wts.foldl (fun acc p =>
    let key := (p.1.1, p.1.2.1)
    match lookupPair acc key with
    | some w => if p.2 < w then insertPair acc key p.2 else acc
    | none => insertPair acc key p.2) []

/-- Total length of a path under a pair-keyed weight map. -/
def pathLen (wmap : List ((Nat × Nat) × ℚ)) : List Nat → ℚ
  | a :: b :: rest => (lookupPair wmap (a, b)).getD 0 + pathLen wmap (b :: rest)
  | _ => 0

/-- Whether a path traverses the directed pair `e` as a consecutive step. -/
def pathUses : List Nat → (Nat × Nat) → Bool
  | a :: b :: rest, e => ((a == e.1) && (b == e.2)) || pathUses (b :: rest) e
  | _, _ => false

/-- All ordered pairs of distinct nodes. -/
def stPairs (nodesL : List Nat) : List (Nat × Nat) :=
  (nodesL.product nodesL).filter (fun p => p.1 ≠ p.2)

/-- The fraction of shortest `s`–`t` paths that traverse the pair `e`
(0 when `t` is unreachable from `s`). -/
def bcContrib (wmap : List ((Nat × Nat) × ℚ)) (adjE : List (Nat × Nat)) (fuel : Nat)
    (s t : Nat) (e : Nat × Nat) : ℚ :=
  let paths := simplePathsAux adjE fuel s t []
  match minRatList (paths.map (pathLen wmap)) with
  | none => 0
  | some d =>
    let minPaths := paths.filter (fun p => pathLen wmap p = d)
    let sigma := minPaths.length
    let used := (minPaths.filter (fun p => pathUses p e)).length
    (used : ℚ) / (sigma : ℚ)

/-- Modelled from the spec: networkx
`edge_betweenness_centrality(G, normalized=True, weight='length')` —
for every `(u, v)` pair of the graph's edges, the sum over ordered node
pairs `(s, t)` of the fraction of length-weighted shortest `s`–`t`
paths traversing the pair, scaled by `1/(n(n-1))`.  The result is keyed
by `(u, v)` pairs, not `(u, v, key)` triples. -/
def edge_betweenness_data (nodesL : List Nat) (wts : List ((Nat × Nat × Nat) × ℚ)) :
    List ((Nat × Nat) × ℚ) :=
  let wmap := pairWeights wts
  let adjE := wmap.map Prod.fst
  let ns := nodesL.dedup
  let n := ns.length
  let norm : ℚ := (n : ℚ) * ((n : ℚ) - 1)
  let pairsL := (wts.map (fun p => (p.1.1, p.1.2.1))).dedup
  pairsL.map (fun e =>
    let raw := (stPairs ns).foldl (fun acc st => acc + bcContrib wmap adjE n st.1 st.2 e) 0
    (e, raw / norm))

/-- networkx `edge_betweenness_centrality(road_network, normalized=True,
weight='length')`. -/
def edge_betweenness_centrality (g : MultiDiGraph) : List ((Nat × Nat) × ℚ) :=
  edge_betweenness_data g.nodes (weightedTriples g)

/-- The closeness-centrality value dictionary written by
`add_edge_centrality_measures`: closeness of the dual nodes of the line
graph, as attribute values. -/
def ccDict (g : MultiDiGraph) : List ((Nat × Nat × Nat) × PyVal) :=
  (closeness_centrality (line_graph g)).map (fun p => (p.1, PyVal.vnum p.2))

/-- The degree-centrality value dictionary written by
`add_edge_centrality_measures`. -/
def dcDict (g : MultiDiGraph) : List ((Nat × Nat × Nat) × PyVal) :=
  (degree_centrality (line_graph g)).map (fun p => (p.1, PyVal.vnum p.2))

/-- The reconciled betweenness value for one `(u, v)` pair: the
betweenness entry when the pair is present, `None` otherwise. -/
def bcVal (bc : List ((Nat × Nat) × ℚ)) (p : Nat × Nat) : PyVal :=
  match lookupPair bc p with
  | some q => PyVal.vnum q
  | none => PyVal.vnone

/-- The key-corrected betweenness dictionary
(`edge_bcentrality__corrected` in the source): every `(u, v, key)`
triple of the network is mapped to the betweenness entry of its
`(u, v)` prefix, `None` when that pair is absent. -/
def bcCorrected (bc : List ((Nat × Nat) × ℚ)) (g : MultiDiGraph) :
    List ((Nat × Nat × Nat) × PyVal) :=
  g.edges.map (fun e => (e.triple, bcVal bc (e.u, e.v)))

/-- `add_edge_centrality_measures(road_network)` from `mobair/utils.py`:
closeness and degree centrality of the line graph are written onto the
edges (keyed by the dual node's `(u, v, key)` identity), then
edge-betweenness of the original network — computed with `(u, v)` pair
granularity — is reconciled onto the `(u, v, key)` triples, `None`
when a triple's pair is absent from the betweenness result. -/
def add_edge_centrality_measures (road_network : MultiDiGraph) : MultiDiGraph :=
  let g1 := set_edge_attributes road_network (ccDict road_network) "closeness_centrality"
  let g2 := set_edge_attributes g1 (dcDict road_network) "degree_centrality"
  let edge_bcentrality := edge_betweenness_centrality g2
  let edge_bcentrality__corrected := bcCorrected edge_bcentrality g2
  set_edge_attributes g2 edge_bcentrality__corrected "betweenness_centrality"

/-! ### Observation helpers and concrete inputs used by the theorems -/

/-- The pollutant value the emission table resolves for a pair: the
value of the LAST matching record, `none` when no record matches. -/
def lastEmission : List EmissionRecord → Nat → Nat → Option ℚ
  | [], _, _ => none
  | r :: rest, u, v =>
    match lastEmission rest u v with
    | some q => some q
    | none => if r.1 = u ∧ r.2.1 = v then some r.2.2 else none

/-- Placeholder edge for positional access. -/
def dummyEdge : Edge := ⟨0, 0, 0, []⟩

/-- The value the mapper resolves for a road, as a total function of
the road tuple (meaningful when the road has at least two nodes). -/
def roadValueOf (g : MultiDiGraph) (attr : String) (default : PyVal) (r : List Nat) : PyVal :=
  roadValue g attr default (r.getD 0 0) (r.getD 1 0)

/-- A triple-dictionary entry when present, a fallback otherwise. -/
def pickT (vals : List ((Nat × Nat × Nat) × PyVal)) (t : Nat × Nat × Nat)
    (fallback : Option PyVal) : Option PyVal :=
  match lookupTriple vals t with
  | some v => some v
  | none => fallback

/-- The per-edge values of one attribute, in edge order. -/
def attrsAt (g : MultiDiGraph) (name : String) : List (Option PyVal) :=
  g.edges.map (fun e => getAttr e.data name)

/-- The corrected betweenness dictionary expressed as a function of the
graph's skeleton alone (shown below to equal the dictionary the
annotator builds). -/
def bcDictOf (g : MultiDiGraph) : List ((Nat × Nat × Nat) × PyVal) :=
  (skeletonTriples g).map (fun t => (t, bcVal (edge_betweenness_centrality g) (t.1, t.2.1)))

/-- The three centrality attributes of all edges, in edge order. -/
def centralitySnapshot (g : MultiDiGraph) :
    List (Option PyVal) × List (Option PyVal) × List (Option PyVal) :=
  (attrsAt g "closeness_centrality", attrsAt g "degree_centrality",
    attrsAt g "betweenness_centrality")

/-- The 4-node directed cycle with unit `length` on every edge. -/
def cycle4 : MultiDiGraph :=
  ⟨[0, 1, 2, 3],
   [⟨0, 1, 0, [("length", .vnum 1)]⟩, ⟨1, 2, 0, [("length", .vnum 1)]⟩,
    ⟨2, 3, 0, [("length", .vnum 1)]⟩, ⟨3, 0, 0, [("length", .vnum 1)]⟩]⟩

/-- A two-node graph with two parallel edges between node 1 and node 2,
carrying different values of the attribute `name`. -/
def gPar : MultiDiGraph :=
  ⟨[1, 2], [⟨1, 2, 0, [("name", .vstr "a")]⟩, ⟨1, 2, 1, [("name", .vstr "b")]⟩]⟩

/-- A concrete emission-record list with a duplicated pair. -/
def recsEx : List EmissionRecord := [(1, 2, 5), (1, 2, 9), (2, 1, 4)]

/-- A concrete two-column trajectory table. -/
def dfEx : DataFrame := ⟨[("CO_2", [1, 3]), ("other", [5, 6])]⟩

/-! ## Dictionary lemmas -/

theorem getAttr_setAttr_self (d : AttrDict) (name : String) (v : PyVal) :
    getAttr (setAttr d name v) name = some v := by
  induction d with
  | nil => simp [setAttr, getAttr]
  | cons kv rest ih =>
    obtain ⟨k, w⟩ := kv
    by_cases h : k = name <;> simp [setAttr, getAttr, h, ih]

theorem getAttr_setAttr_ne (d : AttrDict) (name name' : String) (v : PyVal)
    (h : name' ≠ name) : getAttr (setAttr d name v) name' = getAttr d name' := by
  induction d with
  | nil => simp [setAttr, getAttr, Ne.symm h]
  | cons kv rest ih =>
    obtain ⟨k, w⟩ := kv
    by_cases hk : k = name
    · subst hk
      simp [setAttr, getAttr, Ne.symm h]
    · by_cases hk' : k = name'
      · simp [setAttr, getAttr, hk, hk', h]
      · simp [setAttr, getAttr, hk, hk', ih]

theorem lookupRoad_insertRoad (d : List (List Nat × PyVal)) (r r' : List Nat) (val : PyVal) :
    lookupRoad (insertRoad d r val) r' = if r' = r then some val else lookupRoad d r' := by
  induction d with
  | nil =>
    by_cases h : r' = r
    · simp [insertRoad, lookupRoad, h]
    · simp [insertRoad, lookupRoad, h, Ne.symm h]
  | cons kv rest ih =>
    obtain ⟨k, w⟩ := kv
    by_cases hk : k = r
    · subst hk
      by_cases h : r' = k
      · simp [insertRoad, lookupRoad, h]
      · simp [insertRoad, lookupRoad, h, Ne.symm h]
    · by_cases h' : k = r'
      · have hrr : r' ≠ r := fun hh => hk (h'.trans hh)
        simp [insertRoad, lookupRoad, hk, h', hrr]
      · simp [insertRoad, lookupRoad, hk, h', ih]

theorem lookupPair_insertPair {α : Type} (d : List ((Nat × Nat) × α)) (p p' : Nat × Nat)
    (val : α) :
    lookupPair (insertPair d p val) p' = if p' = p then some val else lookupPair d p' := by
  induction d with
  | nil =>
    by_cases h : p' = p
    · simp [insertPair, lookupPair, h]
    · simp [insertPair, lookupPair, h, Ne.symm h]
  | cons kv rest ih =>
    obtain ⟨k, w⟩ := kv
    by_cases hk : k = p
    · subst hk
      by_cases h : p' = k
      · simp [insertPair, lookupPair, h]
      · simp [insertPair, lookupPair, h, Ne.symm h]
    · by_cases h' : k = p'
      · have hpp : p' ≠ p := fun hh => hk (h'.trans hh)
        simp [insertPair, lookupPair, hk, h', hpp]
      · simp [insertPair, lookupPair, hk, h', ih]

theorem colsGet_colsSet (cols : List (String × List ℚ)) (c c' : String) (col : List ℚ) :
    colsGet (colsSet cols c col) c' = if c' = c then some col else colsGet cols c' := by
  induction cols with
  | nil =>
    by_cases h : c' = c
    · simp [colsSet, colsGet, h]
    · simp [colsSet, colsGet, h, Ne.symm h]
  | cons kv rest ih =>
    obtain ⟨k, w⟩ := kv
    by_cases hk : k = c
    · subst hk
      by_cases h : c' = k
      · simp [colsSet, colsGet, h]
      · simp [colsSet, colsGet, h, Ne.symm h]
    · by_cases h' : k = c'
      · have hcc : c' ≠ c := fun hh => hk (h'.trans hh)
        simp [colsSet, colsGet, hk, h', hcc]
      · simp [colsSet, colsGet, hk, h', ih]

theorem colsSet_names (cols : List (String × List ℚ)) (c : String) (col : List ℚ)
    (h : c ∈ cols.map Prod.fst) :
    (colsSet cols c col).map Prod.fst = cols.map Prod.fst := by
  induction cols with
  | nil => simp at h
  | cons kv rest ih =>
    obtain ⟨k, w⟩ := kv
    by_cases hk : k = c
    · simp [colsSet, hk]
    · simp only [List.map_cons, List.mem_cons] at h
      rcases h with h | h

      · exact absurd h.symm hk
      · simp [colsSet, hk, ih h]

/-! ## The attribute mapper: fold specification -/

theorem mapperStep_eq (g : MultiDiGraph) (attr : String) (default : PyVal)
    (d : List (List Nat × PyVal)) (u v : Nat) (rest : List Nat) :
    mapperStep g attr default d (u :: v :: rest)
      = some (insertRoad d (u :: v :: rest) (roadValue g attr default u v)) := by
  simp [mapperStep, roadValue]

theorem mapperStep_short (g : MultiDiGraph) (attr : String) (default : PyVal)
    (d : List (List Nat × PyVal)) (r : List Nat) (h : r.length < 2) :
    mapperStep g attr default d r = none := by
  match r, h with
  | [], _ => rfl
  | [u], _ => rfl

theorem mapperFold_spec (g : MultiDiGraph) (attr : String) (default : PyVal)
    (L : List (List Nat)) (d0 : List (List Nat × PyVal))
    (hwf : ∀ r ∈ L, 2 ≤ r.length) :
    ∃ res, L.foldlM (mapperStep g attr default) d0 = some res ∧
      ∀ r, lookupRoad res r
        = if r ∈ L then some (roadValueOf g attr default r) else lookupRoad d0 r := by
  induction L generalizing d0 with
  | nil => exact ⟨d0, rfl, fun r => by simp⟩
  | cons a L' ih =>
    have ha : 2 ≤ a.length := hwf a (List.mem_cons_self a L')
    obtain ⟨u, v, rest, rfl⟩ : ∃ u v rest, a = u :: v :: rest := by
      match a, ha with
      | u :: v :: rest, _ => exact ⟨u, v, rest, rfl⟩
    obtain ⟨res, hres, hlook⟩ := ih (insertRoad d0 (u :: v :: rest) (roadValue g attr default u v))
      (fun r hr => hwf r (List.mem_cons_of_mem _ hr))
    refine ⟨res, ?_, ?_⟩
    · simpa [List.foldlM, mapperStep_eq] using hres
    · intro r
      rw [hlook r, lookupRoad_insertRoad]
      by_cases h1 : r ∈ L'
      · simp [h1, List.mem_cons]
      · by_cases h2 : r = u :: v :: rest
        · subst h2
          simp [h1, roadValueOf]
        · simp [h1, h2, List.mem_cons]

theorem mapper_spec (roads : List (List Nat)) (g : MultiDiGraph) (attr : String)
    (default : PyVal) (hwf : ∀ r ∈ roads, 2 ≤ r.length) :
    ∃ res, map_road_list_to_attribute roads g attr default = some (res, g) ∧
      ∀ r ∈ roads, lookupRoad res r = some (roadValueOf g attr default r) := by
  obtain ⟨res, hres, hlook⟩ := mapperFold_spec g attr default roads.dedup []
    (fun r hr => hwf r (List.mem_dedup.mp hr))
  refine ⟨res, ?_, ?_⟩
  · simp [map_road_list_to_attribute, hres]
  · intro r hr
    rw [hlook r]
    simp [List.mem_dedup, hr]

/-! ## Claims C2, C9, C10: attribute-mapper resolution -/

/-- **C2**: `map_road_list_to_attribute` resolves only the parallel edge
at key 0: when no key-0 edge exists between the pair, or the key-0 edge
lacks the requested attribute, the segment maps to the caller-supplied
default, and the call never raises (the result is `some`).  Stated for
default values in the documented domain (`string or int`, i.e. not a
dict; the dict-default corner is claim C10). -/
theorem mapper_key0_default_resolution (roads : List (List Nat)) (g : MultiDiGraph)
    (attr : String) (default : PyVal)
    (hwf : ∀ r ∈ roads, 2 ≤ r.length) (hd : default.isDict = false) :
    ∃ res, map_road_list_to_attribute roads g attr default = some (res, g) ∧
      ∀ u v rest, (u :: v :: rest) ∈ roads →
        ((edgeAt g u v 0 = none → lookupRoad res (u :: v :: rest) = some default) ∧
         (∀ e, edgeAt g u v 0 = some e → getAttr e.data attr = none →
            lookupRoad res (u :: v :: rest) = some default)) := by
  obtain ⟨res, hres, hlook⟩ := mapper_spec roads g attr default hwf
  refine ⟨res, hres, fun u v rest hr => ⟨?_, ?_⟩⟩
  · intro hnone
    rw [hlook _ hr]
    simp only [roadValueOf, roadValue, get_edge_data, List.getD_cons_zero,
      List.getD_cons_succ, hnone]
    cases default <;> simp_all [PyVal.isDict]
  · intro e he hattr
    rw [hlook _ hr]
    simp [roadValueOf, roadValue, get_edge_data, he, hattr]

/-- Witness for C2 at a concrete input: the road `[2, 1]` has no key-0
edge in `gPar`, so it resolves to the default. -/
theorem mapper_key0_default_resolution_w :
    ∃ res, map_road_list_to_attribute [[2, 1]] gPar "name" (.vstr "d") = some (res, gPar) ∧
      ∀ u v rest, (u :: v :: rest) ∈ [[2, 1]] →
        ((edgeAt gPar u v 0 = none →
            lookupRoad res (u :: v :: rest) = some (.vstr "d")) ∧
         (∀ e, edgeAt gPar u v 0 = some e → getAttr e.data "name" = none →
            lookupRoad res (u :: v :: rest) = some (.vstr "d"))) :=
  mapper_key0_default_resolution [[2, 1]] gPar "name" (.vstr "d") (by decide) rfl

/-- Counterexample for C9 as stated: the segment `[1, 2, 1]` is an
explicitly keyed triple and the edge with key 1 carries `"b"`, yet the
mapper resolves the key-0 edge's value `"a"` — the explicit key is not
honoured. -/
theorem keyed_segment_counterexample :
    map_road_list_to_attribute [[1, 2, 1]] gPar "name" (.vstr "d")
      = some ([([1, 2, 1], .vstr "a")], gPar)
    ∧ getAttr (gPar.edges.getD 1 dummyEdge).data "name" = some (.vstr "b")
    ∧ PyVal.vstr "a" ≠ PyVal.vstr "b" := by
  refine ⟨rfl, rfl, fun h => ?_⟩
  simp at h

/-- **C9 (amended)**: the parallel edge consulted is always the one at
key 0, whether the segment is a bare pair or carries further components
(an explicit key): any trailing components of the segment tuple are
ignored for edge resolution and only distinguish result keys. -/
theorem mapper_always_key0 (roads : List (List Nat)) (g : MultiDiGraph)
    (attr : String) (default : PyVal) (hwf : ∀ r ∈ roads, 2 ≤ r.length) :
    ∃ res, map_road_list_to_attribute roads g attr default = some (res, g) ∧
      ∀ u v rest, (u :: v :: rest) ∈ roads → ∀ e, edgeAt g u v 0 = some e →
        lookupRoad res (u :: v :: rest) = some ((getAttr e.data attr).getD default) := by
  obtain ⟨res, hres, hlook⟩ := mapper_spec roads g attr default hwf
  refine ⟨res, hres, fun u v rest hr e he => ?_⟩
  rw [hlook _ hr]
  simp [roadValueOf, roadValue, get_edge_data, he]

/-- Witness for the amended C9 at a concrete input: the keyed triple
`[1, 2, 1]` resolves through the key-0 edge. -/
theorem mapper_always_key0_w :
    ∃ res, map_road_list_to_attribute [[1, 2, 1]] gPar "name" (.vstr "d") = some (res, gPar) ∧
      ∀ u v rest, (u :: v :: rest) ∈ [[1, 2, 1]] → ∀ e, edgeAt gPar u v 0 = some e →
        lookupRoad res (u :: v :: rest) = some ((getAttr e.data "name").getD (.vstr "d")) :=
  mapper_always_key0 [[1, 2, 1]] gPar "name" (.vstr "d") (by decide)

/-- **C10**: when no key-0 edge exists, the mapper tests whether the
lookup result is a dict, so a dict-valued default is itself searched
for the attribute name: the segment maps to
`default_value.get(attribute_name, default_value)` for a dict default,
and to the default verbatim otherwise. -/
theorem mapper_dict_default (roads : List (List Nat)) (g : MultiDiGraph)
    (attr : String) (default : PyVal) (hwf : ∀ r ∈ roads, 2 ≤ r.length) :
    ∃ res, map_road_list_to_attribute roads g attr default = some (res, g) ∧
      ∀ u v rest, (u :: v :: rest) ∈ roads → edgeAt g u v 0 = none →
        lookupRoad res (u :: v :: rest)
          = some (match default with
              | .vdict dd => (getAttr dd attr).getD default
              | _ => default) := by
  obtain ⟨res, hres, hlook⟩ := mapper_spec roads g attr default hwf
  refine ⟨res, hres, fun u v rest hr hnone => ?_⟩
  rw [hlook _ hr]
  simp [roadValueOf, roadValue, get_edge_data, hnone]

/-- Witness for C10 at a concrete input: a dict default is searched for
the attribute name when the edge is absent. -/
theorem mapper_dict_default_w :
    ∃ res, map_road_list_to_attribute [[2, 1]] gPar "name" (.vdict [("name", .vnum 7)])
        = some (res, gPar) ∧
      ∀ u v rest, (u :: v :: rest) ∈ [[2, 1]] → edgeAt gPar u v 0 = none →
        lookupRoad res (u :: v :: rest)
          = some (match PyVal.vdict [("name", .vnum 7)] with
              | .vdict dd => (getAttr dd "name").getD (.vdict [("name", .vnum 7)])
              | _ => .vdict [("name", .vnum 7)]) :=
  mapper_dict_default [[2, 1]] gPar "name" (.vdict [("name", .vnum 7)]) (by decide)

/-! ## Claim C3: the emission aggregator -/

theorem getD_map_of_lt {α β : Type} (f : α → β) (l : List α) (i : Nat)
    (h : i < l.length) (d : α) (d' : β) : (l.map f).getD i d' = f (l.getD i d) := by
  induction l generalizing i with
  | nil => simp at h
  | cons a rest ih =>
    cases i with
    | zero => simp [List.getD_cons_zero]
    | succ n =>
      simp only [List.map_cons, List.getD_cons_succ]
      exact ih n (by simpa using Nat.lt_of_succ_lt_succ h)

theorem lookup_emission_fold (rs : List EmissionRecord) (d : List ((Nat × Nat) × ℚ))
    (u v : Nat) :
    lookupPair (rs.foldl (fun d r => insertPair d (r.1, r.2.1) r.2.2) d) (u, v)
      = match lastEmission rs u v with
        | some q => some q
        | none => lookupPair d (u, v) := by
  induction rs generalizing d with
  | nil => simp [lastEmission]
  | cons r rest ih =>
    simp only [List.foldl_cons, ih, lastEmission]
    cases lastEmission rest u v with
    | some q => simp
    | none =>
      simp only [lookupPair_insertPair]
      by_cases h : r.1 = u ∧ r.2.1 = v
      · obtain ⟨h1, h2⟩ := h
        simp [h1, h2, Prod.ext_iff]
      · have : ¬((u, v) = (r.1, r.2.1)) := by
          simp only [Prod.ext_iff]
          intro hh
          exact h ⟨hh.1.symm, hh.2.symm⟩
        simp [h, this]

theorem lookupPair_emissionTable (records : List EmissionRecord) (u v : Nat) :
    lookupPair (emissionTable records) (u, v)
      = lastEmission records u v := by
  rw [emissionTable, lookup_emission_fold]
  cases lastEmission records u v <;> simp [lookupPair]

/-- **C3**: after `add_edge_emissions`, every edge carries the
pollutant attribute: its value is the cumulative emission of the last
record for the edge's `(u, v)` endpoints (a duplicated pair is silently
overwritten by the later record), the same for all parallel edges of
the pair, and `None` when the pair is absent from the record list. -/
theorem add_edge_emissions_values (records : List EmissionRecord) (g : MultiDiGraph)
    (p : String) (i : Nat) (hi : i < g.edges.length) :
    getAttr ((add_edge_emissions records g p).edges.getD i dummyEdge).data p
      = some (match lastEmission records (g.edges.getD i dummyEdge).u
                (g.edges.getD i dummyEdge).v with
          | some q => PyVal.vnum q
          | none => PyVal.vnone) := by
  rw [add_edge_emissions]
  rw [getD_map_of_lt _ _ _ hi dummyEdge]
  rw [emisF, lookupPair_emissionTable]
  cases lastEmission records (g.edges.getD i dummyEdge).u (g.edges.getD i dummyEdge).v with
  | some q => simp [getAttr_setAttr_self]
  | none => simp [getAttr_setAttr_self]

/-- Witness for C3 at a concrete input: in `recsEx` the pair `(1, 2)`
occurs twice and the later record (value 9) wins; both parallel edges
of `gPar` receive it. -/
theorem add_edge_emissions_values_w :
    getAttr ((add_edge_emissions recsEx gPar "CO_2").edges.getD 0 dummyEdge).data "CO_2"
      = some (match lastEmission recsEx (gPar.edges.getD 0 dummyEdge).u
                (gPar.edges.getD 0 dummyEdge).v with
          | some q => PyVal.vnum q
          | none => PyVal.vnone) :=
  add_edge_emissions_values recsEx gPar "CO_2" 0 (by decide)

/-! ## Claims C4, C5: the emission normalizer -/

theorem colsGet_isSome_mem (cols : List (String × List ℚ)) (c : String)
    (h : (colsGet cols c).isSome = true) : c ∈ cols.map Prod.fst := by
  induction cols with
  | nil => simp [colsGet] at h
  | cons kv rest ih =>
    obtain ⟨k, w⟩ := kv
    by_cases hk : k = c
    · simp [hk]
    · simp only [colsGet, hk, if_false] at h
      simp [ih h]

theorem normalize_fold (tdf : DataFrame) (percentage : Bool) (P : List String)
    (acc : DataFrame)
    (hall : ∀ c ∈ P, (dfGet tdf c).isSome = true)
    (hnames : acc.cols.map Prod.fst = tdf.cols.map Prod.fst) :
    ∃ out, P.foldlM (normalizeStep tdf percentage) acc = some out ∧
      out.cols.map Prod.fst = tdf.cols.map Prod.fst ∧
      ∀ c, dfGet out c = if c ∈ P then (dfGet tdf c).map (normColumn percentage)
        else dfGet acc c := by
  induction P generalizing acc with
  | nil => exact ⟨acc, rfl, hnames, fun c => by simp⟩
  | cons a P' ih =>
    have ha := hall a (List.mem_cons_self a P')
    obtain ⟨col, hcol⟩ := Option.isSome_iff_exists.mp ha
    have hmem : a ∈ acc.cols.map Prod.fst := by
      rw [hnames]
      exact colsGet_isSome_mem tdf.cols a (by simp [dfGet] at hcol ⊢; simp [hcol])
    have hnames' : (dfSet acc a (normColumn percentage col)).cols.map Prod.fst
        = tdf.cols.map Prod.fst := by
      rw [dfSet, colsSet_names acc.cols a _ hmem, hnames]
    obtain ⟨out, hout, hn, hlook⟩ := ih (dfSet acc a (normColumn percentage col))
      (fun c hc => hall c (List.mem_cons_of_mem _ hc)) hnames'
    refine ⟨out, ?_, hn, ?_⟩
    · simpa [List.foldlM, normalizeStep, hcol] using hout
    · intro c
      rw [hlook c]
      by_cases h1 : c ∈ P'
      · simp [h1, List.mem_cons]
      · by_cases h2 : c = a
        · have hcol' : colsGet tdf.cols a = some col := hcol
          simp [h1, h2, dfGet, dfSet, colsGet_colsSet, hcol']
        · simp [h1, h2, List.mem_cons, dfGet, dfSet, colsGet_colsSet]

/-- **C4**: `normalize_emissions` returns a table in which every listed
pollutant column is divided elementwise by its own total (times 100
when `percentage`), while column names and order, unlisted columns, row
count and row order are unchanged.  (The input itself is untouched: the
source writes only to `tdf_with_emissions.copy()`, which the embedding
renders by building the output as a separate value.) -/
theorem normalize_emissions_spec (tdf : DataFrame) (percentage : Bool)
    (pollutants : List String)
    (hall : ∀ c ∈ pollutants, (dfGet tdf c).isSome = true) :
    ∃ out, normalize_emissions tdf percentage pollutants = some out ∧
      out.cols.map Prod.fst = tdf.cols.map Prod.fst ∧
      (∀ c, c ∉ pollutants → dfGet out c = dfGet tdf c) ∧
      (∀ c ∈ pollutants, dfGet out c = (dfGet tdf c).map (normColumn percentage)) ∧
      (∀ c col col', dfGet tdf c = some col → dfGet out c = some col' →
        col'.length = col.length) := by
  obtain ⟨out, hout, hn, hlook⟩ := normalize_fold tdf percentage pollutants tdf hall rfl
  refine ⟨out, hout, hn, ?_, ?_, ?_⟩
  · intro c hc
    rw [hlook c]
    simp [hc]
  · intro c hc
    rw [hlook c]
    simp [hc]
  · intro c col col' hcol hcol'
    rw [hlook c] at hcol'
    by_cases hc : c ∈ pollutants
    · simp only [hc, if_true, hcol, Option.map_some] at hcol'
      cases hcol'
      simp [normColumn]
    · simp only [hc, if_false, hcol] at hcol'
      cases hcol'
      rfl

/-- Witness for C4 at a concrete input. -/
theorem normalize_emissions_spec_w :
    ∃ out, normalize_emissions dfEx true ["CO_2"] = some out ∧
      out.cols.map Prod.fst = dfEx.cols.map Prod.fst ∧
      (∀ c, c ∉ ["CO_2"] → dfGet out c = dfGet dfEx c) ∧
      (∀ c ∈ ["CO_2"], dfGet out c = (dfGet dfEx c).map (normColumn true)) ∧
      (∀ c col col', dfGet dfEx c = some col → dfGet out c = some col' →
        col'.length = col.length) :=
  normalize_emissions_spec dfEx true ["CO_2"] (by decide)

theorem sum_map_div (col : List ℚ) (S : ℚ) :
    (col.map (fun x => x / S)).sum = col.sum / S := by
  induction col with
  | nil => simp
  | cons x rest ih => simp [ih, add_div]

theorem sum_map_div_mul (col : List ℚ) (S a : ℚ) :
    (col.map (fun x => x / S * a)).sum = col.sum / S * a := by
  induction col with
  | nil => simp
  | cons x rest ih => simp [ih, add_div, add_mul]

theorem normColumn_sum (percentage : Bool) (col : List ℚ) (hs : col.sum ≠ 0) :
    (normColumn percentage col).sum = if percentage then 100 else 1 := by
  cases percentage with
  | true => simp [normColumn, sum_map_div_mul, div_self hs]
  | false => simp [normColumn, sum_map_div, div_self hs]

/-- **C5**: for every listed pollutant column whose original sum is
nonzero, the output column of `normalize_emissions` sums to 100 when
`percentage=True` and to 1 when `percentage=False`. -/
theorem normalize_emissions_sum (tdf : DataFrame) (percentage : Bool)
    (pollutants : List String) (c : String) (col : List ℚ)
    (hall : ∀ c' ∈ pollutants, (dfGet tdf c').isSome = true)
    (hc : c ∈ pollutants) (hcol : dfGet tdf c = some col) (hs : col.sum ≠ 0) :
    ∃ out, normalize_emissions tdf percentage pollutants = some out ∧
      dfGet out c = some (normColumn percentage col) ∧
      (normColumn percentage col).sum = (if percentage then 100 else 1) := by
  obtain ⟨out, hout, _, _, hpoll, _⟩ := normalize_emissions_spec tdf percentage pollutants hall
  refine ⟨out, hout, ?_, normColumn_sum percentage col hs⟩
  rw [hpoll c hc, hcol]
  rfl

/-! ## Centrality annotation: preservation lemmas -/

theorem map_ext {α β : Type} (l : List α) (f g : α → β) (h : ∀ a, f a = g a) :
    l.map f = l.map g := by
  induction l with
  | nil => rfl
  | cons a rest ih => simp [h a, ih]

theorem pickT_idem (vals : List ((Nat × Nat × Nat) × PyVal)) (t : Nat × Nat × Nat)
    (o : Option PyVal) : pickT vals t (pickT vals t o) = pickT vals t o := by
  unfold pickT
  cases lookupTriple vals t <;> rfl

theorem setEdgeF_triple (vals : List ((Nat × Nat × Nat) × PyVal)) (name : String)
    (e : Edge) : (setEdgeF vals name e).triple = e.triple := by
  rw [setEdgeF]
  cases lookupTriple vals e.triple <;> rfl

theorem getAttr_setEdgeF_ne (vals : List ((Nat × Nat × Nat) × PyVal)) (name name' : String)
    (e : Edge) (h : name' ≠ name) :
    getAttr (setEdgeF vals name e).data name' = getAttr e.data name' := by
  rw [setEdgeF]
  cases lookupTriple vals e.triple with
  | none => rfl
  | some v => simp [getAttr_setAttr_ne _ _ _ _ h]

theorem getAttr_setEdgeF_self (vals : List ((Nat × Nat × Nat) × PyVal)) (name : String)
    (e : Edge) :
    getAttr (setEdgeF vals name e).data name = pickT vals e.triple (getAttr e.data name) := by
  rw [setEdgeF, pickT]
  cases lookupTriple vals e.triple with
  | none => rfl
  | some v => simp [getAttr_setAttr_self]

theorem edgeLength_setEdgeF (vals : List ((Nat × Nat × Nat) × PyVal)) (name : String)
    (e : Edge) (h : name ≠ "length") :
    edgeLength (setEdgeF vals name e).data = edgeLength e.data := by
  rw [edgeLength, edgeLength, getAttr_setEdgeF_ne vals name "length" e (Ne.symm h)]

theorem nodes_set_edge_attributes (g : MultiDiGraph) (vals : List ((Nat × Nat × Nat) × PyVal))
    (name : String) : (set_edge_attributes g vals name).nodes = g.nodes := rfl

theorem skeletonTriples_set_edge_attributes (g : MultiDiGraph)
    (vals : List ((Nat × Nat × Nat) × PyVal)) (name : String) :
    skeletonTriples (set_edge_attributes g vals name) = skeletonTriples g := by
  rw [skeletonTriples, skeletonTriples, set_edge_attributes, List.map_map]
  exact map_ext _ _ _ (fun e => setEdgeF_triple vals name e)

theorem weightedTriples_set_edge_attributes (g : MultiDiGraph)
    (vals : List ((Nat × Nat × Nat) × PyVal)) (name : String) (h : name ≠ "length") :
    weightedTriples (set_edge_attributes g vals name) = weightedTriples g := by
  rw [weightedTriples, weightedTriples, set_edge_attributes, List.map_map]
  refine map_ext _ _ _ (fun e => ?_)
  simp only [Function.comp]
  rw [setEdgeF_triple, edgeLength_setEdgeF vals name e h]

theorem ebc_set_edge_attributes (g : MultiDiGraph) (vals : List ((Nat × Nat × Nat) × PyVal))
    (name : String) (h : name ≠ "length") :
    edge_betweenness_centrality (set_edge_attributes g vals name)
      = edge_betweenness_centrality g := by
  rw [edge_betweenness_centrality, edge_betweenness_centrality,
    nodes_set_edge_attributes, weightedTriples_set_edge_attributes g vals name h]

theorem attrsAt_set_edge_attributes_ne (g : MultiDiGraph)
    (vals : List ((Nat × Nat × Nat) × PyVal)) (name name' : String) (h : name' ≠ name) :
    attrsAt (set_edge_attributes g vals name) name' = attrsAt g name' := by
  rw [attrsAt, attrsAt, set_edge_attributes, List.map_map]
  refine map_ext _ _ _ (fun e => ?_)
  simp only [Function.comp]
  rw [getAttr_setEdgeF_ne vals name name' e h]

theorem attrsAt_set_edge_attributes_self (g : MultiDiGraph)
    (vals : List ((Nat × Nat × Nat) × PyVal)) (name : String) :
    attrsAt (set_edge_attributes g vals name) name
      = g.edges.map (fun e => pickT vals e.triple (getAttr e.data name)) := by
  rw [attrsAt, set_edge_attributes, List.map_map]
  refine map_ext _ _ _ (fun e => ?_)
  simp only [Function.comp]
  rw [getAttr_setEdgeF_self]

theorem bcCorrected_eq_skeleton (bc : List ((Nat × Nat) × ℚ)) (h : MultiDiGraph) :
    bcCorrected bc h = (skeletonTriples h).map (fun t => (t, bcVal bc (t.1, t.2.1))) := by
  rw [bcCorrected, skeletonTriples, List.map_map]
  exact map_ext _ _ _ (fun e => rfl)

theorem annotate_skeleton (g : MultiDiGraph) :
    skeletonTriples (add_edge_centrality_measures g) = skeletonTriples g := by
  rw [add_edge_centrality_measures]
  rw [skeletonTriples_set_edge_attributes, skeletonTriples_set_edge_attributes,
    skeletonTriples_set_edge_attributes]

theorem annotate_weighted (g : MultiDiGraph) :
    weightedTriples (add_edge_centrality_measures g) = weightedTriples g := by
  rw [add_edge_centrality_measures]
  rw [weightedTriples_set_edge_attributes _ _ _ (by decide),
    weightedTriples_set_edge_attributes _ _ _ (by decide),
    weightedTriples_set_edge_attributes _ _ _ (by decide)]

theorem annotate_nodes (g : MultiDiGraph) :
    (add_edge_centrality_measures g).nodes = g.nodes := rfl

theorem ebc_annotate (g : MultiDiGraph) :
    edge_betweenness_centrality (add_edge_centrality_measures g)
      = edge_betweenness_centrality g := by
  rw [edge_betweenness_centrality, edge_betweenness_centrality, annotate_nodes,
    annotate_weighted]

theorem line_graph_annotate (g : MultiDiGraph) :
    line_graph (add_edge_centrality_measures g) = line_graph g := by
  rw [line_graph, line_graph, annotate_skeleton]

theorem ccDict_annotate (g : MultiDiGraph) :
    ccDict (add_edge_centrality_measures g) = ccDict g := by
  rw [ccDict, ccDict, line_graph_annotate]

theorem dcDict_annotate (g : MultiDiGraph) :
    dcDict (add_edge_centrality_measures g) = dcDict g := by
  rw [dcDict, dcDict, line_graph_annotate]

/-! ## Claim C1: betweenness key reconciliation -/

theorem edges_length_set_edge_attributes (g : MultiDiGraph)
    (vals : List ((Nat × Nat × Nat) × PyVal)) (name : String) :
    (set_edge_attributes g vals name).edges.length = g.edges.length := by
  rw [set_edge_attributes]
  exact List.length_map _ _

theorem skeleton_getD_triple {g g' : MultiDiGraph}
    (h : skeletonTriples g' = skeletonTriples g)
    (hlen : g'.edges.length = g.edges.length) (i : Nat) (hi : i < g.edges.length) :
    (g'.edges.getD i dummyEdge).triple = (g.edges.getD i dummyEdge).triple := by
  have h2 := congrArg (fun l => l.getD i dummyEdge.triple) h
  simp only [skeletonTriples] at h2
  rwa [getD_map_of_lt Edge.triple g'.edges i (hlen ▸ hi) dummyEdge,
    getD_map_of_lt Edge.triple g.edges i hi dummyEdge] at h2

theorem lookupTriple_map_triple (F : Nat × Nat → PyVal) (l : List Edge) (i : Nat)
    (hi : i < l.length) :
    lookupTriple (l.map (fun e => (e.triple, F (e.u, e.v)))) ((l.getD i dummyEdge).triple)
      = some (F ((l.getD i dummyEdge).u, (l.getD i dummyEdge).v)) := by
  induction l generalizing i with
  | nil => simp at hi
  | cons e rest ih =>
    cases i with
    | zero => simp [lookupTriple, List.getD_cons_zero]
    | succ n =>
      have hn : n < rest.length := by simpa using Nat.lt_of_succ_lt_succ hi
      simp only [List.map_cons, List.getD_cons_succ, lookupTriple]
      by_cases h : e.triple = (rest.getD n dummyEdge).triple
      · rw [if_pos h]
        have hu : e.u = (rest.getD n dummyEdge).u := congrArg (fun t => t.1) h
        have hv : e.v = (rest.getD n dummyEdge).v := congrArg (fun t => t.2.1) h
        rw [hu, hv]
      · rw [if_neg h]
        exact ih n hn

/-- **C1**: after `add_edge_centrality_measures`, every edge's
`betweenness_centrality` attribute is present and equals the
betweenness entry indexed by the edge's `(u, v)` prefix when that pair
occurs in the betweenness result, and `None` when it is absent; the
lookup is total (embedded as a match, never a raising access). -/
theorem betweenness_reconciliation (g : MultiDiGraph) (i : Nat)
    (hi : i < g.edges.length) :
    getAttr ((add_edge_centrality_measures g).edges.getD i dummyEdge).data
        "betweenness_centrality"
      = some (match lookupPair (edge_betweenness_centrality g)
                ((g.edges.getD i dummyEdge).u, (g.edges.getD i dummyEdge).v) with
          | some q => PyVal.vnum q
          | none => PyVal.vnone) := by
  rw [add_edge_centrality_measures]
  set g1 := set_edge_attributes g (ccDict g) "closeness_centrality" with hg1
  set g2 := set_edge_attributes g1 (dcDict g) "degree_centrality" with hg2
  have hlen1 : g1.edges.length = g.edges.length := edges_length_set_edge_attributes ..
  have hlen2 : g2.edges.length = g.edges.length := by
    rw [hg2, edges_length_set_edge_attributes, hlen1]
  have hsk : skeletonTriples g2 = skeletonTriples g := by
    rw [hg2, skeletonTriples_set_edge_attributes, hg1,
      skeletonTriples_set_edge_attributes]
  have hebc : edge_betweenness_centrality g2 = edge_betweenness_centrality g := by
    rw [hg2, ebc_set_edge_attributes _ _ _ (by decide), hg1,
      ebc_set_edge_attributes _ _ _ (by decide)]
  rw [set_edge_attributes]
  show getAttr ((g2.edges.map (setEdgeF (bcCorrected (edge_betweenness_centrality g2) g2)
      "betweenness_centrality")).getD i dummyEdge).data "betweenness_centrality" = _
  rw [getD_map_of_lt _ _ _ (by rw [hlen2]; exact hi) dummyEdge,
    getAttr_setEdgeF_self]
  have hlt : lookupTriple (bcCorrected (edge_betweenness_centrality g2) g2)
      ((g2.edges.getD i dummyEdge).triple)
      = some (bcVal (edge_betweenness_centrality g2)
          ((g2.edges.getD i dummyEdge).u, (g2.edges.getD i dummyEdge).v)) :=
    lookupTriple_map_triple _ g2.edges i (by rw [hlen2]; exact hi)
  rw [pickT, hlt]
  have htr : (g2.edges.getD i dummyEdge).triple = (g.edges.getD i dummyEdge).triple :=
    skeleton_getD_triple hsk hlen2 i hi
  have hu : (g2.edges.getD i dummyEdge).u = (g.edges.getD i dummyEdge).u :=
    congrArg (fun t => t.1) htr
  have hv : (g2.edges.getD i dummyEdge).v = (g.edges.getD i dummyEdge).v :=
    congrArg (fun t => t.2.1) htr
  rw [hu, hv, hebc, bcVal]

/-- Witness for C1 at a concrete input: the first edge of the 4-cycle. -/
theorem betweenness_reconciliation_w :
    getAttr ((add_edge_centrality_measures cycle4).edges.getD 0 dummyEdge).data
        "betweenness_centrality"
      = some (match lookupPair (edge_betweenness_centrality cycle4)
                ((cycle4.edges.getD 0 dummyEdge).u, (cycle4.edges.getD 0 dummyEdge).v) with
          | some q => PyVal.vnum q
          | none => PyVal.vnone) :=
  betweenness_reconciliation cycle4 0 (by decide)

/-! ## Claim C7: idempotence of the centrality annotator -/

theorem bcCorrected_inside_annotate (g : MultiDiGraph) :
    bcCorrected
        (edge_betweenness_centrality
          (set_edge_attributes
            (set_edge_attributes g (ccDict g) "closeness_centrality")
            (dcDict g) "degree_centrality"))
        (set_edge_attributes
          (set_edge_attributes g (ccDict g) "closeness_centrality")
          (dcDict g) "degree_centrality")
      = bcDictOf g := by
  rw [bcCorrected_eq_skeleton, bcDictOf]
  rw [skeletonTriples_set_edge_attributes, skeletonTriples_set_edge_attributes]
  rw [ebc_set_edge_attributes _ _ _ (by decide), ebc_set_edge_attributes _ _ _ (by decide)]

theorem annotate_edges (g : MultiDiGraph) :
    (add_edge_centrality_measures g).edges
      = g.edges.map (fun e =>
          setEdgeF (bcDictOf g) "betweenness_centrality"
            (setEdgeF (dcDict g) "degree_centrality"
              (setEdgeF (ccDict g) "closeness_centrality" e))) := by
  rw [add_edge_centrality_measures]
  rw [show ∀ h : MultiDiGraph, ∀ vals name, (set_edge_attributes h vals name).edges
      = h.edges.map (setEdgeF vals name) from fun h vals name => rfl]
  rw [bcCorrected_inside_annotate]
  rw [show ∀ h : MultiDiGraph, ∀ vals name, (set_edge_attributes h vals name).edges
      = h.edges.map (setEdgeF vals name) from fun h vals name => rfl]
  rw [show ∀ h : MultiDiGraph, ∀ vals name, (set_edge_attributes h vals name).edges
      = h.edges.map (setEdgeF vals name) from fun h vals name => rfl]
  rw [List.map_map, List.map_map]
  rfl

theorem attrsAt_annotate_cc (g : MultiDiGraph) :
    attrsAt (add_edge_centrality_measures g) "closeness_centrality"
      = g.edges.map (fun e =>
          pickT (ccDict g) e.triple (getAttr e.data "closeness_centrality")) := by
  rw [add_edge_centrality_measures]
  rw [attrsAt_set_edge_attributes_ne _ _ _ _ (by decide),
    attrsAt_set_edge_attributes_ne _ _ _ _ (by decide),
    attrsAt_set_edge_attributes_self]

theorem attrsAt_annotate_dc (g : MultiDiGraph) :
    attrsAt (add_edge_centrality_measures g) "degree_centrality"
      = g.edges.map (fun e =>
          pickT (dcDict g) e.triple (getAttr e.data "degree_centrality")) := by
  rw [add_edge_centrality_measures]
  rw [attrsAt_set_edge_attributes_ne _ _ _ _ (by decide),
    attrsAt_set_edge_attributes_self]
  rw [show ∀ h : MultiDiGraph, ∀ vals name, (set_edge_attributes h vals name).edges
      = h.edges.map (setEdgeF vals name) from fun h vals name => rfl]
  rw [List.map_map]
  refine map_ext _ _ _ (fun e => ?_)
  simp only [Function.comp]
  rw [setEdgeF_triple, getAttr_setEdgeF_ne _ _ _ _ (by decide)]

theorem attrsAt_annotate_bc (g : MultiDiGraph) :
    attrsAt (add_edge_centrality_measures g) "betweenness_centrality"
      = g.edges.map (fun e =>
          pickT (bcDictOf g) e.triple (getAttr e.data "betweenness_centrality")) := by
  rw [add_edge_centrality_measures]
  rw [attrsAt_set_edge_attributes_self, bcCorrected_inside_annotate]
  rw [show ∀ h : MultiDiGraph, ∀ vals name, (set_edge_attributes h vals name).edges
      = h.edges.map (setEdgeF vals name) from fun h vals name => rfl]
  rw [show ∀ h : MultiDiGraph, ∀ vals name, (set_edge_attributes h vals name).edges
      = h.edges.map (setEdgeF vals name) from fun h vals name => rfl]
  rw [List.map_map, List.map_map]
  refine map_ext _ _ _ (fun e => ?_)
  simp only [Function.comp]
  rw [setEdgeF_triple, setEdgeF_triple, getAttr_setEdgeF_ne _ _ _ _ (by decide),
    getAttr_setEdgeF_ne _ _ _ _ (by decide)]

theorem bcDictOf_annotate (g : MultiDiGraph) :
    bcDictOf (add_edge_centrality_measures g) = bcDictOf g := by
  rw [bcDictOf, bcDictOf, annotate_skeleton, ebc_annotate]

/-- **C7**: `add_edge_centrality_measures` is idempotent — a second run
on the already-annotated network reproduces exactly the same
`closeness_centrality`, `degree_centrality` and
`betweenness_centrality` values on every edge. -/
theorem centrality_idempotent (g : MultiDiGraph) :
    centralitySnapshot (add_edge_centrality_measures (add_edge_centrality_measures g))
      = centralitySnapshot (add_edge_centrality_measures g) := by
  have hcc : attrsAt (add_edge_centrality_measures (add_edge_centrality_measures g))
      "closeness_centrality"
      = attrsAt (add_edge_centrality_measures g) "closeness_centrality" := by
    rw [attrsAt_annotate_cc (add_edge_centrality_measures g), ccDict_annotate,
      annotate_edges g, List.map_map, attrsAt_annotate_cc g]
    refine map_ext _ _ _ (fun e => ?_)
    simp only [Function.comp]
    rw [setEdgeF_triple, setEdgeF_triple, setEdgeF_triple,
      getAttr_setEdgeF_ne _ _ _ _ (by decide), getAttr_setEdgeF_ne _ _ _ _ (by decide),
      getAttr_setEdgeF_self, pickT_idem]
  have hdc : attrsAt (add_edge_centrality_measures (add_edge_centrality_measures g))
      "degree_centrality"
      = attrsAt (add_edge_centrality_measures g) "degree_centrality" := by
    rw [attrsAt_annotate_dc (add_edge_centrality_measures g), dcDict_annotate,
      annotate_edges g, List.map_map, attrsAt_annotate_dc g]
    refine map_ext _ _ _ (fun e => ?_)
    simp only [Function.comp]
    rw [setEdgeF_triple, setEdgeF_triple, setEdgeF_triple,
      getAttr_setEdgeF_ne _ _ _ _ (by decide), getAttr_setEdgeF_self,
      setEdgeF_triple, getAttr_setEdgeF_ne _ _ _ _ (by decide), pickT_idem]
  have hbc : attrsAt (add_edge_centrality_measures (add_edge_centrality_measures g))
      "betweenness_centrality"
      = attrsAt (add_edge_centrality_measures g) "betweenness_centrality" := by
    rw [attrsAt_annotate_bc (add_edge_centrality_measures g), bcDictOf_annotate,
      annotate_edges g, List.map_map, attrsAt_annotate_bc g]
    refine map_ext _ _ _ (fun e => ?_)
    simp only [Function.comp]
    rw [setEdgeF_triple, setEdgeF_triple, setEdgeF_triple, getAttr_setEdgeF_self,
      setEdgeF_triple, setEdgeF_triple, getAttr_setEdgeF_ne _ _ _ _ (by decide),
      getAttr_setEdgeF_ne _ _ _ _ (by decide), pickT_idem]
  rw [centralitySnapshot, centralitySnapshot, hcc, hdc, hbc]

/-! ## Claim C8: frame effects -/

theorem emisF_triple (table : List ((Nat × Nat) × ℚ)) (p : String) (e : Edge) :
    (emisF table p e).triple = e.triple := by
  rw [emisF]
  cases lookupPair table (e.u, e.v) <;> rfl

theorem getAttr_emisF_ne (table : List ((Nat × Nat) × ℚ)) (p name : String) (e : Edge)
    (h : name ≠ p) : getAttr (emisF table p e).data name = getAttr e.data name := by
  rw [emisF]
  cases lookupPair table (e.u, e.v) <;> simp [getAttr_setAttr_ne _ _ _ _ h]

theorem mapper_no_mutation (roads : List (List Nat)) (g : MultiDiGraph) (attr : String)
    (default : PyVal) (res : List (List Nat × PyVal)) (g' : MultiDiGraph)
    (h : map_road_list_to_attribute roads g attr default = some (res, g')) : g' = g := by
  rw [map_road_list_to_attribute] at h
  cases hf : roads.dedup.foldlM (mapperStep g attr default) [] with
  | none => rw [hf] at h; simp at h
  | some d =>
    rw [hf] at h
    simp at h
    exact h.2.symm

/-- **C8**: `map_road_list_to_attribute` has no side effects on the
network, and `add_edge_emissions` / `add_edge_centrality_measures`
mutate it only through their named edge attributes: nodes and
`(u, v, key)` edge triples are unchanged and every attribute other than
the written ones keeps its value on every edge. -/
theorem frame_effects (g : MultiDiGraph) (roads : List (List Nat)) (attr : String)
    (default : PyVal) (records : List EmissionRecord) (p : String) (name₁ name₂ : String)
    (h1 : name₁ ≠ p)
    (h2 : name₂ ∉ ["closeness_centrality", "degree_centrality", "betweenness_centrality"]) :
    (∀ res g', map_road_list_to_attribute roads g attr default = some (res, g') → g' = g) ∧
    (add_edge_emissions records g p).nodes = g.nodes ∧
    skeletonTriples (add_edge_emissions records g p) = skeletonTriples g ∧
    attrsAt (add_edge_emissions records g p) name₁ = attrsAt g name₁ ∧
    (add_edge_centrality_measures g).nodes = g.nodes ∧
    skeletonTriples (add_edge_centrality_measures g) = skeletonTriples g ∧
    attrsAt (add_edge_centrality_measures g) name₂ = attrsAt g name₂ := by
  have hcn : name₂ ≠ "closeness_centrality" := by simp at h2; exact h2.1
  have hdn : name₂ ≠ "degree_centrality" := by simp at h2; exact h2.2.1
  have hbn : name₂ ≠ "betweenness_centrality" := by simp at h2; exact h2.2.2
  refine ⟨fun res g' h => mapper_no_mutation roads g attr default res g' h, rfl, ?_, ?_,
    rfl, annotate_skeleton g, ?_⟩
  · rw [add_edge_emissions, skeletonTriples, skeletonTriples, List.map_map]
    exact map_ext _ _ _ (fun e => emisF_triple _ p e)
  · rw [add_edge_emissions, attrsAt, attrsAt, List.map_map]
    exact map_ext _ _ _ (fun e => getAttr_emisF_ne _ p name₁ e h1)
  · rw [add_edge_centrality_measures]
    rw [attrsAt_set_edge_attributes_ne _ _ _ _ hbn,
      attrsAt_set_edge_attributes_ne _ _ _ _ hdn,
      attrsAt_set_edge_attributes_ne _ _ _ _ hcn]

/-- Witness for C8 at a concrete input. -/
theorem frame_effects_w :
    (∀ res g', map_road_list_to_attribute [[2, 1]] gPar "name" (.vstr "d") = some (res, g')
      → g' = gPar) ∧
    (add_edge_emissions recsEx gPar "CO_2").nodes = gPar.nodes ∧
    skeletonTriples (add_edge_emissions recsEx gPar "CO_2") = skeletonTriples gPar ∧
    attrsAt (add_edge_emissions recsEx gPar "CO_2") "name" = attrsAt gPar "name" ∧
    (add_edge_centrality_measures gPar).nodes = gPar.nodes ∧
    skeletonTriples (add_edge_centrality_measures gPar) = skeletonTriples gPar ∧
    attrsAt (add_edge_centrality_measures gPar) "name" = attrsAt gPar "name" :=
  frame_effects gPar [[2, 1]] "name" (.vstr "d") recsEx "CO_2" "name" "name"
    (by decide) (by decide)

/-! ## Concrete evaluations

Rational arithmetic is `@[irreducible]` in the library; within this
section it is made reducible again so that closed computations reduce. -/

section ConcreteEval

attribute [local semireducible] Rat.add Rat.mul Rat.inv Rat.sub

/-- Witness for C5 at a concrete input: the `CO_2` column `[1, 3]`
normalizes to `[25, 75]`, which sums to 100. -/
theorem normalize_emissions_sum_w :
    ∃ out, normalize_emissions dfEx true ["CO_2"] = some out ∧
      dfGet out "CO_2" = some (normColumn true [1, 3]) ∧
      (normColumn true [1, 3]).sum = (if true then (100 : ℚ) else 1) :=
  normalize_emissions_sum dfEx true ["CO_2"] "CO_2" [1, 3]
    (by decide) (by decide) rfl (by decide)

/-- **C6**: on the directed 4-node cycle with unit lengths, after
annotation every edge carries the same betweenness value (1/2), the
same closeness value (1/2), and a degree centrality of `2/(E−1)` where
`E` is the number of dual (line-graph) nodes. -/
theorem cycle4_centralities :
    attrsAt (add_edge_centrality_measures cycle4) "betweenness_centrality"
      = List.replicate 4 (some (.vnum (1 / 2)))
    ∧ attrsAt (add_edge_centrality_measures cycle4) "closeness_centrality"
      = List.replicate 4 (some (.vnum (1 / 2)))
    ∧ attrsAt (add_edge_centrality_measures cycle4) "degree_centrality"
      = List.replicate 4 (some (.vnum
          (2 / (((line_graph cycle4).nodes.length : ℚ) - 1)))) :=
  ⟨rfl, rfl, rfl⟩

end ConcreteEval

end Mobair
